import Mathlib

/-!
Shallow embedding of the underground mining engine of `Mine4Orpheus.py`:
tile data model, terrain generation, the dig/move step of the main loop,
the particle pool, the dig cooldown and the camera follower, together with
theorems settling the specification claims about them.

Randomness is made explicit: the categorical tile sampler of
`Terrain.generate_row` is a parameter `pick`, and the uniform velocity
sampler of `ParticlePool.emit` is a parameter `rv`.  Python floats are
modelled by exact rationals.
-/

/-- Screen width in pixels (source constant `WIDTH`). -/
def WIDTH : ℤ := 640

/-- Screen height in pixels (source constant `HEIGHT`). -/
def HEIGHT : ℤ := 480

/-- Tile edge length in pixels (source constant `TILE_SIZE`). -/
def TILE_SIZE : ℤ := 32

/-- Number of tile columns, `WIDTH // TILE_SIZE = 20`. -/
def COLS : ℤ := WIDTH / TILE_SIZE

/-- Number of visible tile rows, `HEIGHT // TILE_SIZE = 15`. -/
def ROWS : ℤ := HEIGHT / TILE_SIZE

/-- Tile kinds; the source uses the integer ids `0..6`. -/
inductive Tile
  | EMPTY
  | DIRT
  | ROCK
  | BRONZE
  | SILVER
  | GOLD
  | DIAMOND
  deriving DecidableEq, Repr

/-- Durability dict of the source (`DURABILITY`); `EMPTY` has no entry, so
lookups from drawing/generation go through `durGet`, which models
`DURABILITY.get(tile_id, 1)`. -/
def DURABILITY : Tile → Option ℤ
  | .DIRT => some 1
  | .ROCK => some 9999
  | .BRONZE => some 3
  | .SILVER => some 5
  | .GOLD => some 8
  | .DIAMOND => some 12
  | .EMPTY => none

/-- Models `DURABILITY.get(tile_id, 1)`. -/
def durGet (t : Tile) : ℤ := (DURABILITY t).getD 1

/-- RGB colour triple. -/
def Color := ℕ × ℕ × ℕ
  deriving DecidableEq

/-- Base tile colours (source dict `TILE_COLORS`). -/
def TILE_COLORS : Tile → Color
  | .EMPTY => (20, 15, 10)
  | .DIRT => (139, 69, 19)
  | .ROCK => (80, 80, 80)
  | .BRONZE => (205, 127, 50)
  | .SILVER => (192, 192, 192)
  | .GOLD => (255, 215, 0)
  | .DIAMOND => (180, 250, 255)

/-- Membership test `tile_id in session.inventory`: the session inventory
dict is created with exactly the keys `BRONZE, SILVER, GOLD, DIAMOND`. -/
def inInventory : Tile → Bool
  | .BRONZE => true
  | .SILVER => true
  | .GOLD => true
  | .DIAMOND => true
  | _ => false

/-- Dig cooldown set after a non-destroying hit:
`max(50, 250 - (session.shovel_level * 20))`. -/
def digCooldown (shovelLevel : ℤ) : ℤ := max 50 (250 - shovelLevel * 20)

/-- Ore base/scale table (source dict `ORE_CONFIG`), as (base, scale)
rational pairs; `0.05 = 1/20`, `0.1 = 1/10`, `0.15 = 3/20`. -/
def ORE_CONFIG_ROCK : ℚ × ℚ := (10, 1/20)

/-- ORE_CONFIG entry for bronze. -/
def ORE_CONFIG_BRONZE : ℚ × ℚ := (15, -(1/10))

/-- ORE_CONFIG entry for silver. -/
def ORE_CONFIG_SILVER : ℚ × ℚ := (8, -(1/20))

/-- ORE_CONFIG entry for gold. -/
def ORE_CONFIG_GOLD : ℚ × ℚ := (3, 3/20)

/-- ORE_CONFIG entry for diamond. -/
def ORE_CONFIG_DIAMOND : ℚ × ℚ := (1, 1/10)

/-- The six sampling weights of `Terrain.generate_row`, in the order
`[DIRT, ROCK, BRONZE, SILVER, GOLD, DIAMOND]` of the `choices` list. -/
structure RowW where
  dirt : ℚ
  rock : ℚ
  bronze : ℚ
  silver : ℚ
  gold : ℚ
  diamond : ℚ

/-- Weight computation of `Terrain.generate_row` for a row at depth `y`:
base weights `[71, 10, 8, 4, 1, 1]`; for `scaled_depth = max(0, y - 20) > 0`
the ore weights are recomputed from `ORE_CONFIG` and dirt takes the
remainder floored at 10. -/
def rowWeights (y : ℤ) : RowW :=
  let scaled : ℤ := max 0 (y - 20)
  if scaled > 0 then
    let w1 := max 5 (ORE_CONFIG_ROCK.1 + (scaled : ℚ) * ORE_CONFIG_ROCK.2)
    let w2 := max 1 (ORE_CONFIG_BRONZE.1 + (scaled : ℚ) * ORE_CONFIG_BRONZE.2)
    let w3 := max 1 (ORE_CONFIG_SILVER.1 + (scaled : ℚ) * ORE_CONFIG_SILVER.2)
    let w4 := ORE_CONFIG_GOLD.1 + (scaled : ℚ) * ORE_CONFIG_GOLD.2
    let w5 := ORE_CONFIG_DIAMOND.1 + (scaled : ℚ) * ORE_CONFIG_DIAMOND.2
    let w0 := max 10 (100 - (w1 + w2 + w3 + w4 + w5))
    ⟨w0, w1, w2, w3, w4, w5⟩
  else
    ⟨71, 10, 8, 4, 1, 1⟩

/-- Camera pixel target: `max(0.0, grid_y * TILE_SIZE - HEIGHT // 3)`. -/
def camTarget (gridY : ℤ) : ℚ := max 0 ((gridY : ℚ) * (TILE_SIZE : ℚ) - 160)

/-- One frame of camera smoothing:
`camera_y += (target - camera_y) * 0.1`. -/
def camStep (camera target : ℚ) : ℚ := camera + (target - camera) * (1/10)

/-- Iterated camera smoothing against a fixed target. -/
def camIter (target : ℚ) : ℕ → ℚ → ℚ
  | 0, c => c
  | n + 1, c => camStep (camIter target n c) target

/-- A tile cell: the mutable two-element list `[tile_id, hp]` of the grid. -/
def Cell := Tile × ℤ
  deriving DecidableEq

/-- Terrain grid: the sparse dict `self.grid` keyed by `(column, depth)`. -/
def Grid := ℤ × ℤ → Option Cell

/-- Dict store `grid[(x, y)] = c`. -/
def updateGrid (g : Grid) (p : ℤ × ℤ) (c : Cell) : Grid :=
  fun q => if q = p then some c else g q

/-- The row-filling loop `for x in range(COLS): self.grid[(x, y)] = f(x)`. -/
def fillRow (g : Grid) (y : ℤ) (f : ℤ → Cell) : Grid :=
  (List.range COLS.toNat).foldl (fun g' (x : ℕ) => updateGrid g' ((x : ℤ), y) (f (x : ℤ))) g

/-- Terrain.generate_row: no-op if `(0, y)` already exists; below depth 10
a deterministic dirt row; otherwise each column sampled by `pick` (the
`random.choices(choices, weights=weights, k=1)[0]` draw abstracted as a
sampler parameter), stored with durability `DURABILITY.get(tile_id, 1)`. -/
def generateRow (pick : ℤ → ℤ → Tile) (g : Grid) (y : ℤ) : Grid :=
  if g (0, y) ≠ none then g
  else if y < 10 then
    fillRow g y (fun _ => (Tile.DIRT, durGet Tile.DIRT))
  else
    fillRow g y (fun x => ((pick x y), durGet (pick x y)))

/-- Terrain object: the grid dict plus `highest_y_generated`. -/
structure Terrain where
  grid : Grid
  highest : ℤ

/-- Integer range `[a, b]` inclusive, empty when `b < a`. -/
def intRange (a b : ℤ) : List ℤ :=
  (List.range (b + 1 - a).toNat).map (fun i => a + (i : ℤ))

/-- Terrain.ensure_generated: generate every row from `highest + 1` through
`target_y` and advance the frontier; no-op when `target_y ≤ highest`. -/
def ensureGenerated (pick : ℤ → ℤ → Tile) (t : Terrain) (targetY : ℤ) : Terrain :=
  if targetY > t.highest then
    { grid := (intRange (t.highest + 1) targetY).foldl (fun g y => generateRow pick g y) t.grid,
      highest := targetY }
  else t

/-- The empty terrain constructed by `Terrain.__init__`. -/
def initTerrain : Terrain := { grid := fun _ => none, highest := -1 }

/-- Underground startup of `main`: `terrain.ensure_generated(ROWS + 5)`
followed by the direct spawn carve
`terrain.grid[(ug_mole.grid_x, ug_mole.grid_y)] = [EMPTY, 0]`
at the mole start position `(COLS // 2, 5)`. -/
def startTerrain (pick : ℤ → ℤ → Tile) : Terrain :=
  let t := ensureGenerated pick initTerrain (ROWS + 5)
  { t with grid := updateGrid t.grid (COLS / 2, 5) (Tile.EMPTY, 0) }

/-- One pooled particle (class `Particle`). -/
structure Particle where
  active : Bool
  x : ℚ
  y : ℚ
  vx : ℚ
  vy : ℚ
  color : Color
  life : ℤ
  deriving DecidableEq

/-- Particle.__init__: inactive, everything zero, white. -/
def Particle.init : Particle :=
  { active := false, x := 0, y := 0, vx := 0, vy := 0, color := (255, 255, 255), life := 0 }

/-- ParticlePool.__init__(size=256). -/
def mkPool (size : ℕ := 256) : List Particle := List.replicate size Particle.init

/-- Scan loop of `ParticlePool.emit`: walk the pool in order, claim inactive
slots, stop once `emitted >= count` (checked after each increment).  `rv i`
is the i-th draw of `(random.uniform(-3, 3), random.uniform(-5, -1))`. -/
def emitAux (rv : ℕ → ℚ × ℚ) (x y : ℚ) (c : Color) (count : ℕ) :
    List Particle → ℕ → ℕ → List Particle
  | [], _, _ => []
  | p :: rest, emitted, i =>
    if p.active then p :: emitAux rv x y c count rest emitted i
    else
      let p' : Particle :=
        { active := true, x := x, y := y, vx := (rv i).1, vy := (rv i).2, color := c, life := 255 }
      if count ≤ emitted + 1 then p' :: rest
      else p' :: emitAux rv x y c count rest (emitted + 1) (i + 1)

/-- ParticlePool.emit(x, y, color, count=8). -/
def emit (rv : ℕ → ℚ × ℚ) (pool : List Particle) (x y : ℚ) (c : Color)
    (count : ℕ := 8) : List Particle :=
  emitAux rv x y c count pool 0 0

/-- Number of active particles in a pool. -/
def activeCount (pool : List Particle) : ℕ := pool.countP (fun p => p.active)

/-- Number of inactive (free) slots in a pool. -/
def inactiveCount (pool : List Particle) : ℕ := pool.countP (fun p => !p.active)

/-- Behaviour states of `GridMole` (`'IDLE'`, `'MINING'`, `'CRAWLING'`). -/
inductive MState
  | IDLE
  | MINING
  | CRAWLING
  deriving DecidableEq, Repr

/-- Runtime fault raised by the Python interpreter. -/
inductive Err
  | keyError
  deriving DecidableEq, Repr

/-- State touched by the underground movement/mining block of `main`
(lines 432-457): the terrain grid, the underground mole, the session
inventory and the particle pool. -/
structure UG where
  grid : Grid
  moleX : ℤ
  moleY : ℤ
  mstate : MState
  timer : ℤ
  inv : Tile → ℕ
  pool : List Particle

/-- Inventory credit `session.inventory[tile] += 1`. -/
def bump (inv : Tile → ℕ) (t : Tile) : Tile → ℕ :=
  fun u => if u = t then inv u + 1 else inv u

/-- Underground movement/mining attempt of `main` (lines 432-459), given the
input direction `(dx, dy)` computed by the key block, the shovel level and
the emit velocity sampler `rv`.  Faithful points: the target read defaults a
missing cell to `[DIRT, 1]`, but the dig decrement indexes the dict raw
(`terrain.grid[(tx, ty)][1] -= 1`), which raises `KeyError` when the cell
was never generated; destruction credits the inventory only when the
pre-destruction kind is a key of `session.inventory`, emits 8 particles
coloured by that kind, sets the kind to `EMPTY` (leaving the decremented
durability), and moves the mole into the cell. -/
def ugMove (rv : ℕ → ℚ × ℚ) (shovelLevel : ℤ) (s : UG) (dx dy : ℤ) : Except Err UG :=
  if dx ≠ 0 ∨ dy ≠ 0 then
    let tx := s.moleX + dx
    let ty := s.moleY + dy
    if 0 ≤ tx ∧ tx < COLS ∧ 0 ≤ ty then
      let tileData := (s.grid (tx, ty)).getD (Tile.DIRT, 1)
      if tileData.1 = Tile.EMPTY then
        .ok { s with moleX := tx, moleY := ty, timer := 150,
                     mstate := if dy < 0 ∨ dx ≠ 0 then .CRAWLING else .IDLE }
      else if tileData.1 ≠ Tile.ROCK then
        match s.grid (tx, ty) with
        | none => .error .keyError
        | some (k, d) =>
          let g1 := updateGrid s.grid (tx, ty) (k, d - 1)
          if d - 1 ≤ 0 then
            let inv' := if inInventory tileData.1 then bump s.inv tileData.1 else s.inv
            let pool' := emit rv s.pool ((tx : ℚ) * 32 + 16) ((ty : ℚ) * 32 + 16)
                           (TILE_COLORS tileData.1) 8
            .ok { s with grid := updateGrid g1 (tx, ty) (Tile.EMPTY, d - 1),
                         inv := inv', pool := pool', moleX := tx, moleY := ty, timer := 150,
                         mstate := if dy < 0 ∨ dx ≠ 0 then .CRAWLING else .IDLE }
          else
            .ok { s with grid := g1, timer := digCooldown shovelLevel, mstate := .MINING }
      else
        .ok { s with mstate := .IDLE }
    else
      .ok { s with mstate := .IDLE }
  else if s.timer ≤ 0 then .ok { s with mstate := .IDLE }
  else .ok s

/-- Repeated application of the movement/mining attempt with a fixed input
direction (n attempts, earlier attempts first). -/
def ugIter (rv : ℕ → ℚ × ℚ) (shovelLevel : ℤ) (dx dy : ℤ) : ℕ → UG → Except Err UG
  | 0, s => .ok s
  | n + 1, s =>
    match ugIter rv shovelLevel dx dy n s with
    | .ok s' => ugMove rv shovelLevel s' dx dy
    | .error e => .error e

/-- Projection of a step result onto its success state. -/
def okState : Except Err UG → Option UG
  | .ok s => some s
  | .error _ => none

/-- A fixed admissible velocity sampler used for concrete runs. -/
def rv0 : ℕ → ℚ × ℚ := fun _ => (0, -1)

/-- A constant tile sampler used for concrete terrain runs. -/
def pickDirt : ℤ → ℤ → Tile := fun _ _ => Tile.DIRT

/-- A one-cell underground scene: the mole at `(10, 5)`, a single generated
cell `c` directly below it at `(10, 6)`, empty inventory and pool. -/
def ugAt (c : Cell) : UG :=
  { grid := fun p => if p = (10, 6) then some c else none,
    moleX := 10, moleY := 5, mstate := .IDLE, timer := 0,
    inv := fun _ => 0, pool := [] }

/-- An underground scene whose terrain was never generated at all. -/
def ugNone : UG :=
  { grid := fun _ => none, moleX := 10, moleY := 5, mstate := .IDLE, timer := 0,
    inv := fun _ => 0, pool := [] }

/-- Well-formedness of a single cell: an `EMPTY` cell carries durability 0,
and any other cell carries a durability in `[1, durGet kind]`. -/
def cellOK (c : Cell) : Prop :=
  (c.1 = Tile.EMPTY → c.2 = 0) ∧ (c.1 ≠ Tile.EMPTY → 1 ≤ c.2 ∧ c.2 ≤ durGet c.1)

/-- Well-formedness of every generated cell of a grid. -/
def gridOK (g : Grid) : Prop := ∀ p c, g p = some c → cellOK c

/-! ## Helper lemmas -/

theorem updateGrid_same (g : Grid) (p : ℤ × ℤ) (c : Cell) : updateGrid g p c p = some c := by
  simp [updateGrid]

theorem updateGrid_other (g : Grid) (p q : ℤ × ℤ) (c : Cell) (h : q ≠ p) :
    updateGrid g p c q = g q := by
  simp [updateGrid, h]

theorem updateGrid_overwrite (g : Grid) (p : ℤ × ℤ) (c c' : Cell) :
    updateGrid (updateGrid g p c) p c' = updateGrid g p c' := by
  funext q
  by_cases h : q = p <;> simp [updateGrid, h]

theorem foldlFill_apply (y : ℤ) (f : ℤ → Cell) (l : List ℕ) (g : Grid) (p : ℤ × ℤ) :
    (l.foldl (fun g' (x : ℕ) => updateGrid g' ((x : ℤ), y) (f (x : ℤ))) g) p =
      if p.2 = y ∧ ∃ x ∈ l, (x : ℤ) = p.1 then some (f p.1) else g p := by
  induction l generalizing g with
  | nil => simp
  | cons a l ih =>
    rw [List.foldl_cons, ih]
    by_cases hy : p.2 = y
    · by_cases htl : ∃ x ∈ l, (x : ℤ) = p.1
      · simp [hy, htl]
      · by_cases ha : (a : ℤ) = p.1
        · have hp : p = ((a : ℤ), y) := by
            rcases p with ⟨p1, p2⟩
            simp only [Prod.mk.injEq]
            exact ⟨ha.symm, hy⟩
          rw [if_neg (fun h => htl h.2), if_pos ⟨hy, ⟨a, List.mem_cons_self a l, ha⟩⟩, hp,
              updateGrid_same]
        · have hp : p ≠ ((a : ℤ), y) := by
            intro hc
            exact ha (by rw [hc])
          have hcons : ¬∃ x ∈ a :: l, (x : ℤ) = p.1 := by
            rintro ⟨x, hx, hxe⟩
            rcases List.mem_cons.mp hx with rfl | hxl
            · exact ha hxe
            · exact htl ⟨x, hxl, hxe⟩
          rw [if_neg (fun h => htl h.2), if_neg (fun h => hcons h.2),
              updateGrid_other _ _ _ _ hp]
    · have hp : p ≠ ((a : ℤ), y) := by
        intro hc
        exact hy (by rw [hc])
      rw [if_neg (fun h => hy h.1), if_neg (fun h => hy h.1), updateGrid_other _ _ _ _ hp]

theorem fillRow_apply (g : Grid) (y : ℤ) (f : ℤ → Cell) (p : ℤ × ℤ) :
    fillRow g y f p = if p.2 = y ∧ 0 ≤ p.1 ∧ p.1 < COLS then some (f p.1) else g p := by
  have hC : COLS = 20 := rfl
  have hmem : (∃ x ∈ List.range COLS.toNat, (x : ℤ) = p.1) ↔ 0 ≤ p.1 ∧ p.1 < COLS := by
    constructor
    · rintro ⟨x, hx, hxe⟩
      rw [List.mem_range] at hx
      have hx20 : x < 20 := by
        rw [hC] at hx
        exact_mod_cast hx
      constructor <;> omega
    · rintro ⟨h0, hlt⟩
      rw [hC] at hlt
      refine ⟨p.1.toNat, ?_, by omega⟩
      rw [List.mem_range]
      omega
  rw [fillRow, foldlFill_apply]
  by_cases hy : p.2 = y
  · by_cases hx : 0 ≤ p.1 ∧ p.1 < COLS
    · rw [if_pos ⟨hy, hmem.mpr hx⟩, if_pos ⟨hy, hx⟩]
    · rw [if_neg (fun h => hx (hmem.mp h.2)),
          if_neg (fun h : p.2 = y ∧ 0 ≤ p.1 ∧ p.1 < COLS => hx h.2)]
  · rw [if_neg (fun h : p.2 = y ∧ ∃ x ∈ List.range COLS.toNat, (x : ℤ) = p.1 => hy h.1),
        if_neg (fun h : p.2 = y ∧ 0 ≤ p.1 ∧ p.1 < COLS => hy h.1)]

theorem ugMove_rock (rv : ℕ → ℚ × ℚ) (sh : ℤ) (s : UG) (dx dy d : ℤ)
    (hdir : dx ≠ 0 ∨ dy ≠ 0)
    (hb : 0 ≤ s.moleX + dx ∧ s.moleX + dx < COLS ∧ 0 ≤ s.moleY + dy)
    (hg : s.grid (s.moleX + dx, s.moleY + dy) = some (Tile.ROCK, d)) :
    ugMove rv sh s dx dy = .ok { s with mstate := .IDLE } := by
  simp only [ugMove, hg, Option.getD_some]
  rw [if_pos hdir, if_pos hb]
  simp

theorem ugMove_missing (rv : ℕ → ℚ × ℚ) (sh : ℤ) (s : UG) (dx dy : ℤ)
    (hdir : dx ≠ 0 ∨ dy ≠ 0)
    (hb : 0 ≤ s.moleX + dx ∧ s.moleX + dx < COLS ∧ 0 ≤ s.moleY + dy)
    (hg : s.grid (s.moleX + dx, s.moleY + dy) = none) :
    ugMove rv sh s dx dy = .error .keyError := by
  simp only [ugMove, hg, Option.getD_none]
  rw [if_pos hdir, if_pos hb]
  simp

theorem ugMove_mine (rv : ℕ → ℚ × ℚ) (sh : ℤ) (s : UG) (dx dy d : ℤ) (k : Tile)
    (hdir : dx ≠ 0 ∨ dy ≠ 0)
    (hb : 0 ≤ s.moleX + dx ∧ s.moleX + dx < COLS ∧ 0 ≤ s.moleY + dy)
    (hg : s.grid (s.moleX + dx, s.moleY + dy) = some (k, d))
    (hke : k ≠ Tile.EMPTY) (hkr : k ≠ Tile.ROCK) (hd : 2 ≤ d) :
    ugMove rv sh s dx dy =
      .ok { s with grid := updateGrid s.grid (s.moleX + dx, s.moleY + dy) (k, d - 1),
                   timer := digCooldown sh, mstate := .MINING } := by
  simp only [ugMove, hg, Option.getD_some]
  rw [if_pos hdir, if_pos hb]
  rw [if_neg (by simpa using hke), if_pos (by simpa using hkr)]
  rw [if_neg (by omega : ¬ d - 1 ≤ 0)]

theorem ugMove_destroy (rv : ℕ → ℚ × ℚ) (sh : ℤ) (s : UG) (dx dy d : ℤ) (k : Tile)
    (hdir : dx ≠ 0 ∨ dy ≠ 0)
    (hb : 0 ≤ s.moleX + dx ∧ s.moleX + dx < COLS ∧ 0 ≤ s.moleY + dy)
    (hg : s.grid (s.moleX + dx, s.moleY + dy) = some (k, d))
    (hke : k ≠ Tile.EMPTY) (hkr : k ≠ Tile.ROCK) (hd : d ≤ 1) :
    ugMove rv sh s dx dy =
      .ok { s with
            grid := updateGrid (updateGrid s.grid (s.moleX + dx, s.moleY + dy) (k, d - 1))
                      (s.moleX + dx, s.moleY + dy) (Tile.EMPTY, d - 1),
            inv := if inInventory k then bump s.inv k else s.inv,
            pool := emit rv s.pool ((s.moleX + dx : ℤ) * 32 + 16) ((s.moleY + dy : ℤ) * 32 + 16)
                      (TILE_COLORS k) 8,
            moleX := s.moleX + dx, moleY := s.moleY + dy, timer := 150,
            mstate := if dy < 0 ∨ dx ≠ 0 then .CRAWLING else .IDLE } := by
  simp only [ugMove, hg, Option.getD_some]
  rw [if_pos hdir, if_pos hb]
  rw [if_neg (by simpa using hke), if_pos (by simpa using hkr)]
  rw [if_pos (by omega : d - 1 ≤ 0)]

theorem ugMove_empty (rv : ℕ → ℚ × ℚ) (sh : ℤ) (s : UG) (dx dy d : ℤ)
    (hdir : dx ≠ 0 ∨ dy ≠ 0)
    (hb : 0 ≤ s.moleX + dx ∧ s.moleX + dx < COLS ∧ 0 ≤ s.moleY + dy)
    (hg : s.grid (s.moleX + dx, s.moleY + dy) = some (Tile.EMPTY, d)) :
    ugMove rv sh s dx dy =
      .ok { s with moleX := s.moleX + dx, moleY := s.moleY + dy, timer := 150,
                   mstate := if dy < 0 ∨ dx ≠ 0 then .CRAWLING else .IDLE } := by
  simp only [ugMove, hg, Option.getD_some]
  rw [if_pos hdir, if_pos hb]
  simp

theorem ugMove_grid_shape (rv : ℕ → ℚ × ℚ) (sh : ℤ) (s : UG) (dx dy : ℤ) (s' : UG)
    (hmove : ugMove rv sh s dx dy = .ok s') :
    s'.grid = s.grid ∨
    ∃ k d, s.grid (s.moleX + dx, s.moleY + dy) = some (k, d) ∧
      k ≠ Tile.EMPTY ∧ k ≠ Tile.ROCK ∧
      ((2 ≤ d ∧ s'.grid = updateGrid s.grid (s.moleX + dx, s.moleY + dy) (k, d - 1)) ∨
       (d ≤ 1 ∧ s'.grid =
          updateGrid (updateGrid s.grid (s.moleX + dx, s.moleY + dy) (k, d - 1))
            (s.moleX + dx, s.moleY + dy) (Tile.EMPTY, d - 1))) := by
  by_cases hdir : dx ≠ 0 ∨ dy ≠ 0
  · by_cases hb : 0 ≤ s.moleX + dx ∧ s.moleX + dx < COLS ∧ 0 ≤ s.moleY + dy
    · cases hg : s.grid (s.moleX + dx, s.moleY + dy) with
      | none =>
        rw [ugMove_missing rv sh s dx dy hdir hb hg] at hmove
        exact absurd hmove (by simp)
      | some c =>
        obtain ⟨k, d⟩ := c
        by_cases hke : k = Tile.EMPTY
        · left
          subst hke
          rw [ugMove_empty rv sh s dx dy d hdir hb hg] at hmove
          cases hmove
          rfl
        · by_cases hkr : k = Tile.ROCK
          · left
            subst hkr
            rw [ugMove_rock rv sh s dx dy d hdir hb hg] at hmove
            cases hmove
            rfl
          · right
            refine ⟨k, d, rfl, hke, hkr, ?_⟩
            by_cases hd : d ≤ 1
            · right
              rw [ugMove_destroy rv sh s dx dy d k hdir hb hg hke hkr hd] at hmove
              cases hmove
              exact ⟨hd, rfl⟩
            · left
              rw [ugMove_mine rv sh s dx dy d k hdir hb hg hke hkr (by omega)] at hmove
              cases hmove
              exact ⟨by omega, rfl⟩
    · left
      simp only [ugMove] at hmove
      rw [if_pos hdir, if_neg hb] at hmove
      cases hmove
      rfl
  · left
    simp only [ugMove] at hmove
    rw [if_neg hdir] at hmove
    by_cases ht : s.timer ≤ 0
    · rw [if_pos ht] at hmove
      cases hmove
      rfl
    · rw [if_neg ht] at hmove
      cases hmove
      rfl

theorem emitAux_length (rv : ℕ → ℚ × ℚ) (x y : ℚ) (c : Color) (count : ℕ)
    (l : List Particle) : ∀ (e i : ℕ), (emitAux rv x y c count l e i).length = l.length := by
  induction l with
  | nil => intro e i; rfl
  | cons p rest ih =>
    intro e i
    simp only [emitAux]
    by_cases hp : p.active
    · simp [hp, ih e i]
    · by_cases hc : count ≤ e + 1
      · simp [hp, hc]
      · simp [hp, hc, ih (e + 1) (i + 1)]

theorem emitAux_active (rv : ℕ → ℚ × ℚ) (x y : ℚ) (c : Color) (count : ℕ)
    (l : List Particle) :
    ∀ (e i : ℕ), activeCount (emitAux rv x y c count l e i) =
      activeCount l + min (max (count - e) 1) (inactiveCount l) := by
  induction l with
  | nil => intro e i; simp [emitAux, activeCount, inactiveCount]
  | cons p rest ih =>
    intro e i
    simp only [emitAux]
    by_cases hp : p.active
    · have := ih e i
      simp only [activeCount, inactiveCount] at this ⊢
      simp [if_pos hp, List.countP_cons, hp, this]
      omega
    · by_cases hc : count ≤ e + 1
      · simp only [if_neg hp, if_pos hc, activeCount, inactiveCount, List.countP_cons, hp]
        simp
        omega
      · simp only [if_neg hp, if_neg hc, activeCount, inactiveCount, List.countP_cons, hp]
        have := ih (e + 1) (i + 1)
        simp only [activeCount, inactiveCount] at this
        simp [this]
        omega

theorem emitAux_mem (rv : ℕ → ℚ × ℚ) (x y : ℚ) (c : Color) (count : ℕ)
    (l : List Particle) :
    ∀ (e i : ℕ) (q : Particle), q ∈ emitAux rv x y c count l e i →
      q ∈ l ∨ (q.active = true ∧ q.x = x ∧ q.y = y ∧ q.color = c ∧ q.life = 255 ∧
               ∃ j, q.vx = (rv j).1 ∧ q.vy = (rv j).2) := by
  induction l with
  | nil => intro e i q hq; simp [emitAux] at hq
  | cons p rest ih =>
    intro e i q hq
    simp only [emitAux] at hq
    by_cases hp : p.active
    · rw [if_pos hp] at hq
      rcases List.mem_cons.mp hq with rfl | hq'
      · exact Or.inl (List.mem_cons_self _ _)
      · rcases ih e i q hq' with h | h
        · exact Or.inl (List.mem_cons_of_mem _ h)
        · exact Or.inr h
    · rw [if_neg hp] at hq
      by_cases hc : count ≤ e + 1
      · rw [if_pos hc] at hq
        rcases List.mem_cons.mp hq with rfl | hq'
        · exact Or.inr ⟨rfl, rfl, rfl, rfl, rfl, i, rfl, rfl⟩
        · exact Or.inl (List.mem_cons_of_mem _ hq')
      · rw [if_neg hc] at hq
        rcases List.mem_cons.mp hq with rfl | hq'
        · exact Or.inr ⟨rfl, rfl, rfl, rfl, rfl, i, rfl, rfl⟩
        · rcases ih (e + 1) (i + 1) q hq' with h | h
          · exact Or.inl (List.mem_cons_of_mem _ h)
          · exact Or.inr h

theorem durGet_pos (t : Tile) : 1 ≤ durGet t := by
  cases t <;> decide

theorem generateRow_ok (pick : ℤ → ℤ → Tile) (hpick : ∀ x y, pick x y ≠ Tile.EMPTY)
    (g : Grid) (y : ℤ) (hg : gridOK g) : gridOK (generateRow pick g y) := by
  intro p c hc
  unfold generateRow at hc
  by_cases h0 : g (0, y) ≠ none
  · rw [if_pos h0] at hc
    exact hg p c hc
  · rw [if_neg h0] at hc
    by_cases hy : y < 10
    · rw [if_pos hy, fillRow_apply] at hc
      by_cases hin : p.2 = y ∧ 0 ≤ p.1 ∧ p.1 < COLS
      · rw [if_pos hin] at hc
        cases hc
        exact ⟨fun he => absurd he (by decide), fun _ => by decide⟩
      · rw [if_neg hin] at hc
        exact hg p c hc
    · rw [if_neg hy, fillRow_apply] at hc
      by_cases hin : p.2 = y ∧ 0 ≤ p.1 ∧ p.1 < COLS
      · rw [if_pos hin] at hc
        cases hc
        exact ⟨fun he => absurd he (hpick p.1 y), fun _ => ⟨durGet_pos _, le_refl _⟩⟩
      · rw [if_neg hin] at hc
        exact hg p c hc

theorem genList_ok (pick : ℤ → ℤ → Tile) (hpick : ∀ x y, pick x y ≠ Tile.EMPTY)
    (l : List ℤ) : ∀ g : Grid, gridOK g →
      gridOK (l.foldl (fun g' y => generateRow pick g' y) g) := by
  induction l with
  | nil => intro g hg; exact hg
  | cons a l ih =>
    intro g hg
    rw [List.foldl_cons]
    exact ih _ (generateRow_ok pick hpick g a hg)

theorem ugIter_mining (rv : ℕ → ℚ × ℚ) (sh : ℤ) (dx dy : ℤ) (k : Tile)
    (hke : k ≠ Tile.EMPTY) (hkr : k ≠ Tile.ROCK) :
    ∀ (m : ℕ) (s : UG) (e : ℤ),
      (dx ≠ 0 ∨ dy ≠ 0) →
      (0 ≤ s.moleX + dx ∧ s.moleX + dx < COLS ∧ 0 ≤ s.moleY + dy) →
      s.grid (s.moleX + dx, s.moleY + dy) = some (k, e) →
      (m : ℤ) + 2 ≤ e →
      ugIter rv sh dx dy (m + 1) s =
        .ok { s with
              grid := updateGrid s.grid (s.moleX + dx, s.moleY + dy) (k, e - (m + 1 : ℕ)),
              timer := digCooldown sh, mstate := .MINING }
  | 0, s, e, hdir, hb, hg, hme => by
    show (match ugIter rv sh dx dy 0 s with
          | .ok s' => ugMove rv sh s' dx dy
          | .error e => .error e) = _
    simp only [ugIter]
    rw [ugMove_mine rv sh s dx dy e k hdir hb hg hke hkr (by push_cast at hme; omega)]
    norm_num
  | (n + 1), s, e, hdir, hb, hg, hme => by
    have ih := ugIter_mining rv sh dx dy k hke hkr n s e hdir hb hg
      (by push_cast at hme ⊢; omega)
    show (match ugIter rv sh dx dy (n + 1) s with
          | .ok s' => ugMove rv sh s' dx dy
          | .error e => .error e) = _
    rw [ih]
    show ugMove rv sh _ dx dy = _
    refine (ugMove_mine rv sh
      { s with grid := updateGrid s.grid (s.moleX + dx, s.moleY + dy) (k, e - (n + 1 : ℕ)),
               timer := digCooldown sh, mstate := .MINING }
      dx dy (e - (n + 1 : ℕ)) k hdir hb (updateGrid_same s.grid _ _) hke hkr
      (by push_cast at hme ⊢; omega)).trans ?_
    rw [updateGrid_overwrite]
    have harith : e - ((n + 1 : ℕ) : ℤ) - 1 = e - ((n + 1 + 1 : ℕ) : ℤ) := by push_cast; ring
    rw [harith]

theorem rowWeights_rock_deep (y : ℤ) (hy : 21 ≤ y) :
    (rowWeights y).rock = max 5 (10 + ((y - 20 : ℤ) : ℚ) * (1/20)) := by
  have hmax : max (0:ℤ) (y - 20) = y - 20 := by omega
  have hpos : (0:ℤ) < y - 20 := by omega
  simp only [rowWeights, hmax, if_pos hpos, ORE_CONFIG_ROCK]

theorem rowWeights_bronze_deep (y : ℤ) (hy : 21 ≤ y) :
    (rowWeights y).bronze = max 1 (15 + ((y - 20 : ℤ) : ℚ) * (-(1/10))) := by
  have hmax : max (0:ℤ) (y - 20) = y - 20 := by omega
  have hpos : (0:ℤ) < y - 20 := by omega
  simp only [rowWeights, hmax, if_pos hpos, ORE_CONFIG_BRONZE]

theorem rowWeights_silver_deep (y : ℤ) (hy : 21 ≤ y) :
    (rowWeights y).silver = max 1 (8 + ((y - 20 : ℤ) : ℚ) * (-(1/20))) := by
  have hmax : max (0:ℤ) (y - 20) = y - 20 := by omega
  have hpos : (0:ℤ) < y - 20 := by omega
  simp only [rowWeights, hmax, if_pos hpos, ORE_CONFIG_SILVER]

theorem rowWeights_gold_deep (y : ℤ) (hy : 21 ≤ y) :
    (rowWeights y).gold = 3 + ((y - 20 : ℤ) : ℚ) * (3/20) := by
  have hmax : max (0:ℤ) (y - 20) = y - 20 := by omega
  have hpos : (0:ℤ) < y - 20 := by omega
  simp only [rowWeights, hmax, if_pos hpos, ORE_CONFIG_GOLD]

theorem rowWeights_diamond_deep (y : ℤ) (hy : 21 ≤ y) :
    (rowWeights y).diamond = 1 + ((y - 20 : ℤ) : ℚ) * (1/10) := by
  have hmax : max (0:ℤ) (y - 20) = y - 20 := by omega
  have hpos : (0:ℤ) < y - 20 := by omega
  simp only [rowWeights, hmax, if_pos hpos, ORE_CONFIG_DIAMOND]

theorem rowWeights_dirt_deep (y : ℤ) (hy : 21 ≤ y) :
    10 ≤ (rowWeights y).dirt := by
  have hmax : max (0:ℤ) (y - 20) = y - 20 := by omega
  have hpos : (0:ℤ) < y - 20 := by omega
  simp only [rowWeights, hmax, if_pos hpos]
  exact le_max_left _ _

/-- Claim C6: the dig cooldown `max(50, 250 - shovel_level * 20)` is
monotonically non-increasing in the shovel level for levels `≥ 1`, and it
never drops below the configured minimum of 50. -/
theorem c6_dig_cooldown (l1 l2 : ℤ) (h1 : 1 ≤ l1) (h12 : l1 ≤ l2) :
    digCooldown l2 ≤ digCooldown l1 ∧ 50 ≤ digCooldown l2 := by
  unfold digCooldown
  constructor
  · have h : 250 - l2 * 20 ≤ 250 - l1 * 20 := by nlinarith
    exact max_le_max (le_refl _) h
  · exact le_max_left _ _

theorem c6_dig_cooldown_witness :
    digCooldown 2 ≤ digCooldown 1 ∧ 50 ≤ digCooldown 2 :=
  c6_dig_cooldown 1 2 (by decide) (by decide)

/-- Claim C9: generating any row at depth `< 10` makes every in-range cell
of that row Dirt with full durability, and the result does not depend on
the random sampler at all (deterministic safe shaft). -/
theorem c9_safe_shaft (pick pick' : ℤ → ℤ → Tile) (g : Grid) (y x : ℤ)
    (hy : y < 10) (h0 : g (0, y) = none) (hx0 : 0 ≤ x) (hxc : x < COLS) :
    generateRow pick g y (x, y) = some (Tile.DIRT, durGet Tile.DIRT) ∧
    generateRow pick g y = generateRow pick' g y := by
  constructor
  · unfold generateRow
    rw [if_neg (show ¬g (0, y) ≠ none from fun h => h h0), if_pos hy, fillRow_apply,
        if_pos ⟨rfl, hx0, hxc⟩]
  · unfold generateRow
    rw [if_neg (show ¬g (0, y) ≠ none from fun h => h h0),
        if_neg (show ¬g (0, y) ≠ none from fun h => h h0), if_pos hy, if_pos hy]

theorem c9_safe_shaft_witness :
    generateRow pickDirt ((fun _ => none) : Grid) 3 (5, 3) =
      some (Tile.DIRT, durGet Tile.DIRT) ∧
    generateRow pickDirt ((fun _ => none) : Grid) 3 =
      generateRow (fun _ _ => Tile.GOLD) ((fun _ => none) : Grid) 3 :=
  c9_safe_shaft pickDirt (fun _ _ => Tile.GOLD) ((fun _ => none) : Grid) 3 5
    (by decide) rfl (by decide) (by decide)

/-- Claim C2 is false as stated: the ORE_CONFIG scale for Rock is `+0.05`,
not negative, so at row 25 (`effectiveDepth = 5`) the Rock weight is
`10.25`, strictly above its row-0 baseline of 10, and the Bronze weight is
recomputed from its config base 15 as `14.5`, strictly above its row-0
baseline of 8. -/
theorem c2_depth_weights_cex :
    ORE_CONFIG_ROCK.2 = 1/20 ∧ 0 < ORE_CONFIG_ROCK.2 ∧
    (rowWeights 25).rock = 41/4 ∧ (rowWeights 25).bronze = 29/2 ∧
    (rowWeights 0).rock = 10 ∧ (rowWeights 0).bronze = 8 ∧
    ¬((rowWeights 25).rock ≤ (rowWeights 0).rock) ∧
    ¬((rowWeights 25).bronze ≤ (rowWeights 0).bronze) := by
  refine ⟨rfl, by norm_num [ORE_CONFIG_ROCK], ?_, ?_, by norm_num [rowWeights], by norm_num [rowWeights], ?_, ?_⟩ <;>
    norm_num [rowWeights, ORE_CONFIG_ROCK, ORE_CONFIG_BRONZE, ORE_CONFIG_SILVER,
      ORE_CONFIG_GOLD, ORE_CONFIG_DIAMOND]

/-- Claim C2 (amended): for rows past the scaling threshold
(`effectiveDepth = max(0, depth - 20) > 0`), the Bronze and Silver weights
decay with depth (negative scales, floored at 1), while the Rock, Gold and
Diamond weights grow with depth (positive scales; Rock floored at 5, Gold
and Diamond unfloored); the Dirt weight is the remainder floored at 10.
At row 25 the Gold and Diamond weights exceed their row-0 baselines, but so
do the Rock and Bronze weights (10.25 > 10 and 14.5 > 8): only the Dirt
weight is at most its baseline. -/
theorem c2_depth_weights_amended :
    (∀ y1 y2 : ℤ, 21 ≤ y1 → y1 ≤ y2 →
      (rowWeights y1).rock ≤ (rowWeights y2).rock ∧
      (rowWeights y2).bronze ≤ (rowWeights y1).bronze ∧
      (rowWeights y2).silver ≤ (rowWeights y1).silver ∧
      (rowWeights y1).gold ≤ (rowWeights y2).gold ∧
      (rowWeights y1).diamond ≤ (rowWeights y2).diamond ∧
      10 ≤ (rowWeights y2).dirt) ∧
    ((rowWeights 0).gold < (rowWeights 25).gold ∧
     (rowWeights 0).diamond < (rowWeights 25).diamond ∧
     (rowWeights 0).rock < (rowWeights 25).rock ∧
     (rowWeights 0).bronze < (rowWeights 25).bronze ∧
     (rowWeights 25).dirt ≤ (rowWeights 0).dirt) := by
  constructor
  · intro y1 y2 h1 h12
    have h2 : (21 : ℤ) ≤ y2 := by omega
    have hc : ((y1 - 20 : ℤ) : ℚ) ≤ ((y2 - 20 : ℤ) : ℚ) := by
      exact_mod_cast (by omega : y1 - 20 ≤ y2 - 20)
    rw [rowWeights_rock_deep y1 h1, rowWeights_rock_deep y2 h2,
        rowWeights_bronze_deep y1 h1, rowWeights_bronze_deep y2 h2,
        rowWeights_silver_deep y1 h1, rowWeights_silver_deep y2 h2,
        rowWeights_gold_deep y1 h1, rowWeights_gold_deep y2 h2,
        rowWeights_diamond_deep y1 h1, rowWeights_diamond_deep y2 h2]
    refine ⟨max_le_max (le_refl _) (by linarith), max_le_max (le_refl _) (by linarith),
      max_le_max (le_refl _) (by linarith), by linarith, by linarith,
      rowWeights_dirt_deep y2 h2⟩
  · norm_num [rowWeights, ORE_CONFIG_ROCK, ORE_CONFIG_BRONZE, ORE_CONFIG_SILVER,
      ORE_CONFIG_GOLD, ORE_CONFIG_DIAMOND]

theorem c2_depth_weights_amended_witness :
    ((rowWeights 21).rock ≤ (rowWeights 25).rock ∧
     (rowWeights 25).bronze ≤ (rowWeights 21).bronze ∧
     (rowWeights 25).silver ≤ (rowWeights 21).silver ∧
     (rowWeights 21).gold ≤ (rowWeights 25).gold ∧
     (rowWeights 21).diamond ≤ (rowWeights 25).diamond ∧
     10 ≤ (rowWeights 25).dirt) ∧
    ((rowWeights 0).gold < (rowWeights 25).gold ∧
     (rowWeights 0).diamond < (rowWeights 25).diamond ∧
     (rowWeights 0).rock < (rowWeights 25).rock ∧
     (rowWeights 0).bronze < (rowWeights 25).bronze ∧
     (rowWeights 25).dirt ≤ (rowWeights 0).dirt) :=
  ⟨c2_depth_weights_amended.1 21 25 (by decide) (by decide), c2_depth_weights_amended.2⟩

/-- Claim C8: the camera offset follows
`camera += (target - camera) * 0.1` with `target = max(0, depthPixels -
HEIGHT // 3)`; against a fixed target the distance shrinks by a factor
`9/10` every frame, and the offset approaches the target monotonically from
its starting side, never overshooting. -/
theorem c8_camera_follow (gy : ℤ) (c : ℚ) (n : ℕ) :
    (camTarget gy - camIter (camTarget gy) (n + 1) c =
      (camTarget gy - camIter (camTarget gy) n c) * (9/10)) ∧
    (camTarget gy - camIter (camTarget gy) n c = (camTarget gy - c) * (9/10) ^ n) ∧
    (c ≤ camTarget gy →
      camIter (camTarget gy) n c ≤ camIter (camTarget gy) (n + 1) c ∧
      camIter (camTarget gy) n c ≤ camTarget gy) ∧
    (camTarget gy ≤ c →
      camIter (camTarget gy) (n + 1) c ≤ camIter (camTarget gy) n c ∧
      camTarget gy ≤ camIter (camTarget gy) n c) := by
  set t := camTarget gy with ht
  have hstep : ∀ q : ℚ, t - camStep q t = (t - q) * (9/10) := by
    intro q
    unfold camStep
    ring
  have hgap : ∀ m : ℕ, t - camIter t m c = (t - c) * (9/10) ^ m := by
    intro m
    induction m with
    | zero => simp [camIter]
    | succ i ihm =>
      show t - camStep (camIter t i c) t = _
      rw [hstep, ihm, pow_succ]
      ring
  have hpow : (0:ℚ) ≤ (9/10) ^ n := by positivity
  refine ⟨?_, hgap n, ?_, ?_⟩
  · show t - camStep (camIter t n c) t = _
    rw [hstep]
  · intro hc
    have h1 : 0 ≤ t - camIter t n c := by
      rw [hgap n]
      have h2 : (0:ℚ) ≤ t - c := by linarith
      exact mul_nonneg h2 hpow
    constructor
    · show camIter t n c ≤ camStep (camIter t n c) t
      unfold camStep
      linarith
    · linarith
  · intro hc
    have h1 : t - camIter t n c ≤ 0 := by
      rw [hgap n]
      have h2 : t - c ≤ 0 := by linarith
      nlinarith
    constructor
    · show camStep (camIter t n c) t ≤ camIter t n c
      unfold camStep
      linarith
    · linarith

theorem c8_camera_follow_witness :
    (0 : ℚ) ≤ camTarget 10 ∧
    (camIter (camTarget 10) 1 0 ≤ camIter (camTarget 10) 2 0 ∧
     camIter (camTarget 10) 1 0 ≤ camTarget 10) :=
  ⟨by norm_num [camTarget, TILE_SIZE],
   (c8_camera_follow 10 0 1).2.2.1 (by norm_num [camTarget, TILE_SIZE])⟩

set_option maxRecDepth 8000 in
/-- Claim C7 is false as stated: `emit` checks `emitted >= count` only
after claiming a slot, so a call with `count = 0` on a fully free pool of
256 slots still activates one particle instead of `min(0, 256) = 0`. -/
theorem c7_emit_zero_cex :
    inactiveCount (mkPool 256) = 256 ∧
    activeCount (mkPool 256) = 0 ∧
    activeCount (emit rv0 (mkPool 256) 0 0 (255, 255, 255) 0) = 1 ∧
    min 0 (inactiveCount (mkPool 256)) = 0 := by
  refine ⟨by decide, by decide, by decide, by decide⟩

/-- Claim C7 (amended): for every requested count `N ≥ 1`, `emit` activates
exactly `min(N, F)` particles where `F` is the number of free slots, each
initialized with the given position and colour, life 255 and a sampled
velocity with `vx ∈ [-3, 3]`, `vy ∈ [-5, -1]`; the pool never grows and the
number of active particles never exceeds the pool size. -/
theorem c7_emit_amended (rv : ℕ → ℚ × ℚ) (pool : List Particle) (x y : ℚ)
    (c : Color) (N : ℕ) (hN : 1 ≤ N)
    (hrv : ∀ i, -3 ≤ (rv i).1 ∧ (rv i).1 ≤ 3 ∧ -5 ≤ (rv i).2 ∧ (rv i).2 ≤ -1) :
    activeCount (emit rv pool x y c N) = activeCount pool + min N (inactiveCount pool) ∧
    (emit rv pool x y c N).length = pool.length ∧
    activeCount (emit rv pool x y c N) ≤ pool.length ∧
    ∀ q ∈ emit rv pool x y c N, q ∈ pool ∨
      (q.active = true ∧ q.x = x ∧ q.y = y ∧ q.color = c ∧ q.life = 255 ∧
       -3 ≤ q.vx ∧ q.vx ≤ 3 ∧ -5 ≤ q.vy ∧ q.vy ≤ -1) := by
  have hact := emitAux_active rv x y c N pool 0 0
  have hmax : max (N - 0) 1 = N := by omega
  rw [hmax] at hact
  refine ⟨hact, emitAux_length rv x y c N pool 0 0, ?_, ?_⟩
  · calc activeCount (emit rv pool x y c N) ≤ (emit rv pool x y c N).length :=
          List.countP_le_length _
      _ = pool.length := emitAux_length rv x y c N pool 0 0
  · intro q hq
    rcases emitAux_mem rv x y c N pool 0 0 q hq with h | ⟨ha, hx, hy, hc, hl, j, hvx, hvy⟩
    · exact Or.inl h
    · obtain ⟨r1, r2, r3, r4⟩ := hrv j
      exact Or.inr ⟨ha, hx, hy, hc, hl, by rw [hvx]; exact r1, by rw [hvx]; exact r2,
        by rw [hvy]; exact r3, by rw [hvy]; exact r4⟩

set_option maxRecDepth 8000 in
theorem c7_emit_amended_witness :
    (1 : ℕ) ≤ 300 ∧
    activeCount (emit rv0 (mkPool 256) 0 0 (255, 255, 255) 300) =
      activeCount (mkPool 256) + min 300 (inactiveCount (mkPool 256)) :=
  ⟨by decide,
   (c7_emit_amended rv0 (mkPool 256) 0 0 (255, 255, 255) 300 (by decide)
     (fun i => by norm_num [rv0])).1⟩

/-- Claim C5: a mining attempt against a Rock cell leaves the whole state
unchanged except for setting the behaviour state to IDLE (no durability
loss, no destruction, no movement), and any number of repeated attempts
does the same. -/
theorem c5_rock_blocks (rv : ℕ → ℚ × ℚ) (sh : ℤ) (s : UG) (dx dy d : ℤ)
    (hdir : dx ≠ 0 ∨ dy ≠ 0)
    (hb : 0 ≤ s.moleX + dx ∧ s.moleX + dx < COLS ∧ 0 ≤ s.moleY + dy)
    (hg : s.grid (s.moleX + dx, s.moleY + dy) = some (Tile.ROCK, d)) :
    ugMove rv sh s dx dy = .ok { s with mstate := .IDLE } ∧
    ∀ n : ℕ, 1 ≤ n → ugIter rv sh dx dy n s = .ok { s with mstate := .IDLE } := by
  have h1 := ugMove_rock rv sh s dx dy d hdir hb hg
  have h2 : ugMove rv sh { s with mstate := MState.IDLE } dx dy =
      .ok { s with mstate := .IDLE } :=
    ugMove_rock rv sh { s with mstate := MState.IDLE } dx dy d hdir hb hg
  refine ⟨h1, ?_⟩
  intro n hn
  induction n with
  | zero => omega
  | succ m ihm =>
    cases Nat.eq_zero_or_pos m with
    | inl h0 =>
      subst h0
      show (match ugIter rv sh dx dy 0 s with
            | .ok s' => ugMove rv sh s' dx dy
            | .error e => .error e) = _
      simp only [ugIter]
      exact h1
    | inr hpos =>
      have hm := ihm hpos
      show (match ugIter rv sh dx dy m s with
            | .ok s' => ugMove rv sh s' dx dy
            | .error e => .error e) = _
      rw [hm]
      exact h2

theorem c5_rock_blocks_witness :
    ugMove rv0 1 (ugAt (Tile.ROCK, 9999)) 0 1 =
      .ok { ugAt (Tile.ROCK, 9999) with mstate := .IDLE } ∧
    ugIter rv0 1 0 1 3 (ugAt (Tile.ROCK, 9999)) =
      .ok { ugAt (Tile.ROCK, 9999) with mstate := .IDLE } :=
  ⟨(c5_rock_blocks rv0 1 (ugAt (Tile.ROCK, 9999)) 0 1 9999 (by decide) (by decide) rfl).1,
   (c5_rock_blocks rv0 1 (ugAt (Tile.ROCK, 9999)) 0 1 9999 (by decide) (by decide) rfl).2
     3 (by decide)⟩

/-- Claim C3: the read of the target cell defaults a missing entry to
`[DIRT, 1]`, but the dig decrement then indexes the raw dict
(`terrain.grid[(tx, ty)][1] -= 1`), so a mining attempt at an in-range but
never-generated cell raises `KeyError` instead of resolving safely: here
the mole at `(10, 5)` digs straight down into an entirely ungenerated
grid. -/
theorem c3_ungenerated_dig_keyerror :
    ugMove rv0 1 ugNone 0 1 = .error .keyError := rfl

/-- Claim C1 is false as stated: Dirt is a destructible, non-Rock,
non-Empty kind with durability 1, and one hit does destroy it (the cell
becomes Empty and the mole moves in), but no inventory credit of kind Dirt
is produced because the inventory has no Dirt slot — the Dirt count stays
0 instead of becoming 1. -/
theorem c1_dirt_no_credit_cex :
    (okState (ugMove rv0 1 (ugAt (Tile.DIRT, 1)) 0 1)).map
        (fun s => (s.grid (10, 6), s.inv Tile.DIRT, s.moleX, s.moleY)) =
      some (some (Tile.EMPTY, 0), 0, 10, 6) := rfl

/-- Claim C10: when the destroyed kind has no inventory slot
(`inInventory k = false`, e.g. Dirt), the destroying hit still empties the
cell, moves the mole into it and emits 8 particles coloured by the
pre-destruction kind, but the inventory is left completely unchanged. -/
theorem c10_no_inventory_slot (rv : ℕ → ℚ × ℚ) (sh : ℤ) (s : UG) (dx dy : ℤ) (k : Tile)
    (hdir : dx ≠ 0 ∨ dy ≠ 0)
    (hb : 0 ≤ s.moleX + dx ∧ s.moleX + dx < COLS ∧ 0 ≤ s.moleY + dy)
    (hg : s.grid (s.moleX + dx, s.moleY + dy) = some (k, 1))
    (hke : k ≠ Tile.EMPTY) (hkr : k ≠ Tile.ROCK)
    (hslot : inInventory k = false) :
    ∃ s', ugMove rv sh s dx dy = .ok s' ∧
      s'.grid (s.moleX + dx, s.moleY + dy) = some (Tile.EMPTY, 0) ∧
      s'.inv = s.inv ∧
      s'.moleX = s.moleX + dx ∧ s'.moleY = s.moleY + dy ∧
      s'.pool = emit rv s.pool (((s.moleX + dx : ℤ) : ℚ) * 32 + 16)
                  (((s.moleY + dy : ℤ) : ℚ) * 32 + 16) (TILE_COLORS k) 8 := by
  refine ⟨_, ugMove_destroy rv sh s dx dy 1 k hdir hb hg hke hkr (by omega),
    ?_, ?_, rfl, rfl, rfl⟩
  · simp only [updateGrid_same, Option.some.injEq, Prod.mk.injEq]
    norm_num
  · simp [hslot]

theorem c10_no_inventory_slot_witness :
    ∃ s', ugMove rv0 1 (ugAt (Tile.DIRT, 1)) 0 1 = .ok s' ∧
      s'.grid ((ugAt (Tile.DIRT, 1)).moleX + 0, (ugAt (Tile.DIRT, 1)).moleY + 1) =
        some (Tile.EMPTY, 0) ∧
      s'.inv = (ugAt (Tile.DIRT, 1)).inv ∧
      s'.moleX = (ugAt (Tile.DIRT, 1)).moleX + 0 ∧
      s'.moleY = (ugAt (Tile.DIRT, 1)).moleY + 1 ∧
      s'.pool = emit rv0 (ugAt (Tile.DIRT, 1)).pool
                  ((((ugAt (Tile.DIRT, 1)).moleX + 0 : ℤ) : ℚ) * 32 + 16)
                  ((((ugAt (Tile.DIRT, 1)).moleY + 1 : ℤ) : ℚ) * 32 + 16)
                  (TILE_COLORS Tile.DIRT) 8 :=
  c10_no_inventory_slot rv0 1 (ugAt (Tile.DIRT, 1)) 0 1 Tile.DIRT (by decide) (by decide)
    rfl (by decide) (by decide) rfl

/-- Claim C1 (amended): for a destructible, non-Rock, non-Empty cell of
durability `d`, the first `d - 1` hits leave the kind unchanged and only
decrement the stored durability (mole, inventory and particle pool
untouched, state MINING, dig cooldown set); the `d`-th hit destroys the
cell — it becomes Empty, the mole moves in, 8 particles coloured by the
pre-destruction kind are emitted, and exactly one inventory credit of that
kind is produced when (and only when) the kind has an inventory slot. -/
theorem c1_durability_hits_amended (rv : ℕ → ℚ × ℚ) (sh : ℤ) (s : UG) (dx dy : ℤ)
    (k : Tile) (d : ℕ)
    (hdir : dx ≠ 0 ∨ dy ≠ 0)
    (hb : 0 ≤ s.moleX + dx ∧ s.moleX + dx < COLS ∧ 0 ≤ s.moleY + dy)
    (hke : k ≠ Tile.EMPTY) (hkr : k ≠ Tile.ROCK) (hd : 1 ≤ d)
    (hg : s.grid (s.moleX + dx, s.moleY + dy) = some (k, (d : ℤ))) :
    (∀ m : ℕ, 1 ≤ m → m < d →
      ugIter rv sh dx dy m s =
        .ok { s with
              grid := updateGrid s.grid (s.moleX + dx, s.moleY + dy) (k, (d : ℤ) - (m : ℕ)),
              timer := digCooldown sh, mstate := .MINING }) ∧
    ∃ s', ugIter rv sh dx dy d s = .ok s' ∧
      s'.grid (s.moleX + dx, s.moleY + dy) = some (Tile.EMPTY, 0) ∧
      s'.inv k = s.inv k + (if inInventory k then 1 else 0) ∧
      (∀ u : Tile, u ≠ k → s'.inv u = s.inv u) ∧
      s'.moleX = s.moleX + dx ∧ s'.moleY = s.moleY + dy ∧
      s'.pool = emit rv s.pool (((s.moleX + dx : ℤ) : ℚ) * 32 + 16)
                  (((s.moleY + dy : ℤ) : ℚ) * 32 + 16) (TILE_COLORS k) 8 := by
  constructor
  · intro m hm hmd
    obtain ⟨m', rfl⟩ : ∃ m', m = m' + 1 := ⟨m - 1, by omega⟩
    exact ugIter_mining rv sh dx dy k hke hkr m' s ((d : ℕ) : ℤ) hdir hb hg
      (by push_cast; omega)
  · cases d with
    | zero => omega
    | succ n =>
      cases Nat.eq_zero_or_pos n with
      | inl h0 =>
        subst h0
        have hstep : ugIter rv sh dx dy (0 + 1) s = .ok
            { s with
              grid := updateGrid (updateGrid s.grid (s.moleX + dx, s.moleY + dy)
                        (k, ((0 + 1 : ℕ) : ℤ) - 1))
                        (s.moleX + dx, s.moleY + dy) (Tile.EMPTY, ((0 + 1 : ℕ) : ℤ) - 1),
              inv := if inInventory k then bump s.inv k else s.inv,
              pool := emit rv s.pool (((s.moleX + dx : ℤ) : ℚ) * 32 + 16)
                        (((s.moleY + dy : ℤ) : ℚ) * 32 + 16) (TILE_COLORS k) 8,
              moleX := s.moleX + dx, moleY := s.moleY + dy, timer := 150,
              mstate := if dy < 0 ∨ dx ≠ 0 then .CRAWLING else .IDLE } := by
          show (match ugIter rv sh dx dy 0 s with
                | .ok s2 => ugMove rv sh s2 dx dy
                | .error e => .error e) = _
          simp only [ugIter]
          exact ugMove_destroy rv sh s dx dy ((0 + 1 : ℕ) : ℤ) k hdir hb hg hke hkr
            (by norm_num)
        refine ⟨_, hstep, ?_, ?_, ?_, rfl, rfl, rfl⟩
        · simp only [updateGrid_same, Option.some.injEq, Prod.mk.injEq]
          norm_num
        · by_cases hik : inInventory k
          · simp [hik, bump]
          · simp [hik]
        · intro u hu
          by_cases hik : inInventory k
          · simp [hik, bump, hu]
          · simp [hik]
      | inr hn =>
        obtain ⟨n', rfl⟩ : ∃ n', n = n' + 1 := ⟨n - 1, by omega⟩
        have hmine := ugIter_mining rv sh dx dy k hke hkr n' s (((n' + 1 + 1 : ℕ) : ℤ))
          hdir hb hg (by push_cast; omega)
        have hstep : ugIter rv sh dx dy (n' + 1 + 1) s = .ok
            { s with
              grid := updateGrid (updateGrid
                        (updateGrid s.grid (s.moleX + dx, s.moleY + dy)
                          (k, ((n' + 1 + 1 : ℕ) : ℤ) - ((n' + 1 : ℕ) : ℤ)))
                        (s.moleX + dx, s.moleY + dy)
                        (k, (((n' + 1 + 1 : ℕ) : ℤ) - ((n' + 1 : ℕ) : ℤ)) - 1))
                        (s.moleX + dx, s.moleY + dy)
                        (Tile.EMPTY, (((n' + 1 + 1 : ℕ) : ℤ) - ((n' + 1 : ℕ) : ℤ)) - 1),
              inv := if inInventory k then bump s.inv k else s.inv,
              pool := emit rv s.pool (((s.moleX + dx : ℤ) : ℚ) * 32 + 16)
                        (((s.moleY + dy : ℤ) : ℚ) * 32 + 16) (TILE_COLORS k) 8,
              moleX := s.moleX + dx, moleY := s.moleY + dy, timer := 150,
              mstate := if dy < 0 ∨ dx ≠ 0 then .CRAWLING else .IDLE } := by
          show (match ugIter rv sh dx dy (n' + 1) s with
                | .ok s2 => ugMove rv sh s2 dx dy
                | .error e => .error e) = _
          rw [hmine]
          exact ugMove_destroy rv sh
            { s with
              grid := updateGrid s.grid (s.moleX + dx, s.moleY + dy)
                        (k, ((n' + 1 + 1 : ℕ) : ℤ) - ((n' + 1 : ℕ) : ℤ)),
              timer := digCooldown sh, mstate := .MINING }
            dx dy (((n' + 1 + 1 : ℕ) : ℤ) - ((n' + 1 : ℕ) : ℤ)) k hdir hb
            (updateGrid_same _ _ _) hke hkr (by push_cast; omega)
        refine ⟨_, hstep, ?_, ?_, ?_, rfl, rfl, rfl⟩
        · simp only [updateGrid_same, Option.some.injEq, Prod.mk.injEq]
          push_cast
          ring
        · by_cases hik : inInventory k
          · simp [hik, bump]
          · simp [hik]
        · intro u hu
          by_cases hik : inInventory k
          · simp [hik, bump, hu]
          · simp [hik]

theorem c1_durability_hits_amended_witness :
    (∀ m : ℕ, 1 ≤ m → m < 3 →
      ugIter rv0 1 0 1 m (ugAt (Tile.BRONZE, 3)) =
        .ok { ugAt (Tile.BRONZE, 3) with
              grid := updateGrid (ugAt (Tile.BRONZE, 3)).grid
                        ((ugAt (Tile.BRONZE, 3)).moleX + 0, (ugAt (Tile.BRONZE, 3)).moleY + 1)
                        (Tile.BRONZE, ((3 : ℕ) : ℤ) - (m : ℕ)),
              timer := digCooldown 1, mstate := .MINING }) ∧
    ∃ s', ugIter rv0 1 0 1 3 (ugAt (Tile.BRONZE, 3)) = .ok s' ∧
      s'.grid ((ugAt (Tile.BRONZE, 3)).moleX + 0, (ugAt (Tile.BRONZE, 3)).moleY + 1) =
        some (Tile.EMPTY, 0) ∧
      s'.inv Tile.BRONZE = (ugAt (Tile.BRONZE, 3)).inv Tile.BRONZE +
        (if inInventory Tile.BRONZE then 1 else 0) ∧
      (∀ u : Tile, u ≠ Tile.BRONZE → s'.inv u = (ugAt (Tile.BRONZE, 3)).inv u) ∧
      s'.moleX = (ugAt (Tile.BRONZE, 3)).moleX + 0 ∧
      s'.moleY = (ugAt (Tile.BRONZE, 3)).moleY + 1 ∧
      s'.pool = emit rv0 (ugAt (Tile.BRONZE, 3)).pool
                  ((((ugAt (Tile.BRONZE, 3)).moleX + 0 : ℤ) : ℚ) * 32 + 16)
                  ((((ugAt (Tile.BRONZE, 3)).moleY + 1 : ℤ) : ℚ) * 32 + 16)
                  (TILE_COLORS Tile.BRONZE) 8 :=
  c1_durability_hits_amended rv0 1 (ugAt (Tile.BRONZE, 3)) 0 1 Tile.BRONZE 3
    (by decide) (by decide) (by decide) (by decide) (by decide) rfl

set_option maxRecDepth 8000 in
/-- Claim C4 is false as stated: the underground startup of `main` carves
the spawn cell `(COLS // 2, 5)` to Empty by direct assignment
(`terrain.grid[...] = [EMPTY, 0]`): before the carve the generated cell is
Dirt with durability 1, after it the cell is Empty although no mining ever
touched it. -/
theorem c4_spawn_carve_cex :
    (ensureGenerated pickDirt initTerrain (ROWS + 5)).grid (COLS / 2, 5) =
      some (Tile.DIRT, 1) ∧
    (startTerrain pickDirt).grid (COLS / 2, 5) = some (Tile.EMPTY, 0) :=
  ⟨rfl, rfl⟩

/-- Claim C4 (amended): every well-formed cell has durability in
`[0, maxDurability(kind)]`; the spawn carve writes the well-formed cell
`(EMPTY, 0)`; terrain generation (with a sampler that never yields EMPTY)
preserves well-formedness of every cell; and the movement/mining step
preserves it too, with a cell changing kind to Empty exactly at the dig
target, exactly when its durability was 1 and the hit brought it to 0. -/
theorem c4_invariant_amended :
    (∀ c : Cell, cellOK c → 0 ≤ c.2 ∧ c.2 ≤ durGet c.1) ∧
    cellOK (Tile.EMPTY, 0) ∧
    (∀ (pick : ℤ → ℤ → Tile), (∀ x y, pick x y ≠ Tile.EMPTY) →
      ∀ (t : Terrain) (ty : ℤ), gridOK t.grid → gridOK (ensureGenerated pick t ty).grid) ∧
    (∀ (rv : ℕ → ℚ × ℚ) (sh : ℤ) (s : UG) (dx dy : ℤ) (s' : UG),
      ugMove rv sh s dx dy = .ok s' → gridOK s.grid →
      gridOK s'.grid ∧
      ∀ (p : ℤ × ℤ) (k : Tile) (d : ℤ) (k' : Tile) (d' : ℤ),
        s.grid p = some (k, d) → s'.grid p = some (k', d') →
        k' = Tile.EMPTY → k ≠ Tile.EMPTY →
        k ≠ Tile.ROCK ∧ d = 1 ∧ d' = 0 ∧ p = (s.moleX + dx, s.moleY + dy)) := by
  refine ⟨?_, ⟨fun _ => rfl, fun he => absurd rfl he⟩, ?_, ?_⟩
  · intro c hc
    by_cases he : c.1 = Tile.EMPTY
    · have h0 := hc.1 he
      have hp := durGet_pos c.1
      omega
    · have h2 := hc.2 he
      omega
  · intro pick hpick t ty hg
    unfold ensureGenerated
    by_cases h : ty > t.highest
    · rw [if_pos h]
      exact genList_ok pick hpick _ t.grid hg
    · rw [if_neg h]
      exact hg
  · intro rv sh s dx dy s' hmove hgOK
    rcases ugMove_grid_shape rv sh s dx dy s' hmove with heq |
      ⟨k0, d0, hg0, hke0, hkr0, hcase⟩
    · constructor
      · rw [heq]
        exact hgOK
      · intro p k d k' d' hp hp' hke' hkne
        rw [heq, hp] at hp'
        simp only [Option.some.injEq, Prod.mk.injEq] at hp'
        exact absurd (hp'.1.trans hke') hkne
    · have hcell := hgOK _ _ hg0
      rcases hcase with ⟨hd2, hgrid⟩ | ⟨hd1, hgrid⟩
      · constructor
        · intro p c hpc
          rw [hgrid] at hpc
          by_cases hpt : p = (s.moleX + dx, s.moleY + dy)
          · rw [hpt, updateGrid_same] at hpc
            cases hpc
            have h2 : 1 ≤ d0 ∧ d0 ≤ durGet k0 := hcell.2 hke0
            exact ⟨fun he => absurd he hke0,
              fun _ => show 1 ≤ d0 - 1 ∧ d0 - 1 ≤ durGet k0 from ⟨by omega, by omega⟩⟩
          · rw [updateGrid_other _ _ _ _ hpt] at hpc
            exact hgOK _ _ hpc
        · intro p k d k' d' hp hp' hke' hkne
          rw [hgrid] at hp'
          by_cases hpt : p = (s.moleX + dx, s.moleY + dy)
          · rw [hpt, updateGrid_same] at hp'
            injection hp' with hpair
            injection hpair with h1 h2
            exact absurd (h1.trans hke') hke0
          · rw [updateGrid_other _ _ _ _ hpt, hp] at hp'
            simp only [Option.some.injEq, Prod.mk.injEq] at hp'
            exact absurd (hp'.1.trans hke') hkne
      · have hd0 : d0 = 1 := by
          have h2 : 1 ≤ d0 ∧ d0 ≤ durGet k0 := hcell.2 hke0
          omega
        constructor
        · intro p c hpc
          rw [hgrid] at hpc
          by_cases hpt : p = (s.moleX + dx, s.moleY + dy)
          · rw [hpt, updateGrid_same] at hpc
            cases hpc
            exact ⟨fun _ => show d0 - 1 = 0 by omega, fun he => absurd rfl he⟩
          · rw [updateGrid_other _ _ _ _ hpt, updateGrid_other _ _ _ _ hpt] at hpc
            exact hgOK _ _ hpc
        · intro p k d k' d' hp hp' hke' hkne
          rw [hgrid] at hp'
          by_cases hpt : p = (s.moleX + dx, s.moleY + dy)
          · rw [hpt, updateGrid_same] at hp'
            injection hp' with hpair
            injection hpair with h1 h2
            have hkd : k = k0 ∧ d = d0 := by
              rw [hpt] at hp
              rw [hp] at hg0
              injection hg0 with hpair2
              injection hpair2 with h3 h4
              exact ⟨h3, h4⟩
            refine ⟨hkd.1 ▸ hkr0, by omega, by omega, hpt⟩
          · rw [updateGrid_other _ _ _ _ hpt, updateGrid_other _ _ _ _ hpt, hp] at hp'
            simp only [Option.some.injEq, Prod.mk.injEq] at hp'
            exact absurd (hp'.1.trans hke') hkne

theorem c4_invariant_amended_witness :
    cellOK (Tile.BRONZE, 2) ∧ (0 ≤ (2 : ℤ) ∧ (2 : ℤ) ≤ durGet Tile.BRONZE) :=
  have hok : cellOK (Tile.BRONZE, 2) :=
    ⟨fun he => absurd he (by decide), fun _ => by decide⟩
  ⟨hok, c4_invariant_amended.1 (Tile.BRONZE, 2) hok⟩
